import Mathlib

/-!
Shallow embedding of the `shard-csv` crate (files `src/shard.rs`,
`src/sharded_writer.rs`, `src/lib.rs`) and proofs about its per-key
file-splitting state machine, its registry and its driver loop.

Records are lists of byte-lists; sinks are modelled as the list of records
written to them, together with an explicit count of the bytes the csv
writer emits.  I/O failures (sink creation, record writes) are injected
through an explicit environment so fallible paths stay executable.
-/

namespace ShardCsv

/-- A field of a CSV record, as its raw bytes. -/
abbrev Field := List Nat

/-- A CSV record (`csv::StringRecord`): an ordered list of fields. -/
abbrev Rec := List Field

/-- The byte count `ShardFile::write_record` charges for one record under
`SplitAfterBytes`: `record.as_byte_record().as_slice().len()`, i.e. the
fields concatenated with no delimiters and no line terminator. -/
def recByteLen (r : Rec) : Nat := (r.map List.length).sum

/-- The bytes the csv writer actually emits to the sink for one record:
the field bytes, one delimiter byte between consecutive fields, and one
line-terminator byte. -/
def emittedLen (r : Rec) : Nat := recByteLen r + (r.length - 1) + 1

/-- `FileSplitting` from `lib.rs`: how output files will be split. -/
inductive FileSplitting where
  | NoSplit : FileSplitting
  | SplitAfterRows : Nat → FileSplitting
  | SplitAfterBytes : Nat → FileSplitting
deriving DecidableEq, Repr

/-- The I/O environment, deciding which operations succeed.  `factoryOk`
is consulted with the identifier passed to the sink factory; `writeOk`
with the identifier, the number of records already written to that sink
(header included) and the record being written. -/
structure Env where
  factoryOk : String → Bool
  writeOk : String → Nat → Rec → Bool

/-- The environment in which every sink creation and every write succeeds. -/
def envAll : Env := { factoryOk := fun _ => true, writeOk := fun _ _ _ => true }

/-- `ShardFile` from `shard.rs`: one open physical file.  `contents` logs
the records written to its sink, header (when configured) first.  `seq`
and `sinkBytes` are observation fields recording the shard sequence number
the file was created at and the total bytes emitted to the sink. -/
structure ShardFile where
  path : String
  key : String
  seq : Nat
  contents : List Rec
  sinkBytes : Nat
  written : Nat
  splitting : FileSplitting
deriving DecidableEq, Repr

/-- `ShardFile::write_record`: write the record to the sink, then update
the split counter and report whether the file should be closed.  `none`
models a csv-writer error, which leaves the file untouched. -/
def ShardFile.write_record (env : Env) (sf : ShardFile) (record : Rec) :
    Option (ShardFile × Bool) :=
  if env.writeOk sf.path sf.contents.length record then
    some (match sf.splitting with
      | .NoSplit =>
        ({ sf with contents := sf.contents ++ [record],
                   sinkBytes := sf.sinkBytes + emittedLen record }, false)
      | .SplitAfterRows rows =>
        ({ sf with contents := sf.contents ++ [record],
                   sinkBytes := sf.sinkBytes + emittedLen record,
                   written := sf.written + 1 },
         decide (rows ≤ sf.written + 1))
      | .SplitAfterBytes bytes =>
        ({ sf with contents := sf.contents ++ [record],
                   sinkBytes := sf.sinkBytes + emittedLen record,
                   written := sf.written + recByteLen record },
         decide (bytes ≤ sf.written + recByteLen record)))
  else none

/-- Observable side effects of a run: a sink being created for a file, and
the completion callback being invoked for a finished file. -/
inductive Event where
  | opened : String → String → Nat → Event
  | completed : String → String → Event
deriving DecidableEq, Repr

/-- The world state threaded through a run: the event log and the physical
files whose writer has been dropped (flushed and closed), in order. -/
structure World where
  events : List Event
  closedFiles : List ShardFile
deriving DecidableEq, Repr

/-- The writer-level configuration shared by every shard: the split
policy, the optional header, the output delimiter byte, whether an
`on_file_completion` callback is installed, the file-naming function and
the key selector. -/
structure Config where
  splitting : FileSplitting
  headerRecord : Option Rec
  delimiter : Nat
  hasNotifier : Bool
  nameFile : String → Nat → String
  keySelector : Rec → String

/-- The events produced when a finished file's writer is dropped: the
completion callback fires exactly when one is installed. -/
def completionEvents (cfg : Config) (sf : ShardFile) : List Event :=
  if cfg.hasNotifier then [Event.completed sf.path sf.key] else []

/-- `Shard` from `shard.rs`: the per-key lifecycle state. -/
structure Shard where
  key : String
  sequence : Nat
  splitting : FileSplitting
  currentFile : Option ShardFile
  headerRecord : Option Rec
deriving DecidableEq, Repr

/-- `Shard::new`: a fresh shard in the closed state with sequence 0,
copying the writer's splitting policy and header record. -/
def Shard.new (cfg : Config) (key : String) : Shard :=
  { key := key, sequence := 0, splitting := cfg.splitting,
    currentFile := none, headerRecord := cfg.headerRecord }

/-- The tail of the closed-state branch of `Shard::write_record`: the
sink has been created and `sf` is the freshly built `ShardFile`, holding
the header (when configured) as its only content; increment the sequence,
write the caller's record, and keep the file open only when the split
policy does not immediately ask to close it.  On a failed record write
the file is dropped (flushed, closed) while the error propagates; on the
close-immediately path the file is dropped with no completion event,
mirroring the code. -/
def openAndWrite (env : Env) (s : Shard) (w : World) (sf : ShardFile)
    (record : Rec) : Shard × World × Bool :=
  let s1 := { s with sequence := s.sequence + 1 }
  match sf.write_record env record with
  | none => (s1, { w with closedFiles := w.closedFiles ++ [sf] }, false)
  | some (sf1, shouldClose) =>
    if shouldClose then
      (s1, { w with closedFiles := w.closedFiles ++ [sf1] }, true)
    else
      ({ s1 with currentFile := some sf1 }, w, true)

/-- The open-state branch of `Shard::write_record`: write to the current
file `sf`; when the split policy says to close it, take it out of the
shard, drop its writer (flush and close) and fire the completion callback
for it; a failed write leaves shard and world untouched (the file stays
open). -/
def writeOpen (cfg : Config) (env : Env) (s : Shard) (w : World)
    (sf : ShardFile) (record : Rec) : Shard × World × Bool :=
  match sf.write_record env record with
  | none => (s, w, false)
  | some (sf1, shouldClose) =>
    if shouldClose then
      ({ s with currentFile := none },
       { w with closedFiles := w.closedFiles ++ [sf1],
                events := w.events ++ completionEvents cfg sf1 }, true)
    else ({ s with currentFile := some sf1 }, w, true)

/-- The world after the sink factory created the file named from the
shard's key and current sequence number. -/
def openedWorld (cfg : Config) (s : Shard) (w : World) : World :=
  { w with events := w.events ++
      [Event.opened (cfg.nameFile s.key s.sequence) s.key s.sequence] }

/-- The `ShardFile` built in the closed-state branch of
`Shard::write_record` (lines 148-154 of `shard.rs`), with `contents0` and
`sink0` holding the already written header, when one is configured. -/
def freshFile (cfg : Config) (s : Shard) (contents0 : List Rec)
    (sink0 : Nat) : ShardFile :=
  { path := cfg.nameFile s.key s.sequence, key := s.key, seq := s.sequence,
    contents := contents0, sinkBytes := sink0, written := 0,
    splitting := s.splitting }

/-- The closed-state branch of `Shard::write_record`: invoke the sink
factory at the name built from the current sequence — failure propagates
with nothing changed; write the optional header — failure propagates with
the sequence still unchanged; then hand over to `openAndWrite`. -/
def writeClosed (cfg : Config) (env : Env) (s : Shard) (w : World)
    (record : Rec) : Shard × World × Bool :=
  if env.factoryOk (cfg.nameFile s.key s.sequence) then
    match s.headerRecord with
    | some h =>
      if env.writeOk (cfg.nameFile s.key s.sequence) 0 h then
        openAndWrite env s (openedWorld cfg s w)
          (freshFile cfg s [h] (emittedLen h)) record
      else (s, openedWorld cfg s w, false)
    | none =>
      openAndWrite env s (openedWorld cfg s w) (freshFile cfg s [] 0) record
  else (s, w, false)

/-- `Shard::write_record`: dispatch on the shard's state.  The boolean
result is false exactly when the write failed; every mutation made before
the failure point persists, as through `&mut self` in the code. -/
def Shard.write_record (cfg : Config) (env : Env) (s : Shard) (w : World)
    (record : Rec) : Shard × World × Bool :=
  match s.currentFile with
  | some sf => writeOpen cfg env s w sf record
  | none => writeClosed cfg env s w record

/-- The `Drop` impl for `Shard`: a still-open file is flushed and closed,
and the completion callback fires for it when one is installed. -/
def Shard.finalize (cfg : Config) (s : Shard) (w : World) : World :=
  match s.currentFile with
  | some sf =>
    { w with closedFiles := w.closedFiles ++ [sf],
             events := w.events ++ completionEvents cfg sf }
  | none => w

/-- The writer's `handles` map, as an association list in insertion order. -/
abbrev Registry := List (String × Shard)

/-- Lookup in the `handles` map. -/
def lookupShard : Registry → String → Option Shard
  | [], _ => none
  | (k, s) :: rest, key =>
    if k = key then some s else lookupShard rest key

/-- Writing back the mutated shard of an occupied entry. -/
def updateShard : Registry → String → Shard → Registry
  | [], _, _ => []
  | (k, s) :: rest, key, s' =>
    if k = key then (k, s') :: rest else (k, s) :: updateShard rest key s'

/-- `ShardedWriter::is_shard_key_seen`. -/
def is_shard_key_seen (hs : Registry) (key : String) : Bool :=
  (lookupShard hs key).isSome

/-- `ShardedWriter::shard_keys_seen`. -/
def shard_keys_seen (hs : Registry) : List String := hs.map Prod.fst

/-- The body of the `ShardedWriter::process_iter` loop for one record:
select the key, and either write through the existing shard (the mutated
shard is written back whether or not the write succeeded, as through the
occupied map entry) or construct a fresh shard, write through it, and
insert it only when that first write succeeded. -/
def processStep (cfg : Config) (env : Env) (hs : Registry) (w : World)
    (record : Rec) : Registry × World × Bool :=
  match lookupShard hs (cfg.keySelector record) with
  | some s =>
    match Shard.write_record cfg env s w record with
    | (s', w', ok) => (updateShard hs (cfg.keySelector record) s', w', ok)
  | none =>
    match Shard.write_record cfg env (Shard.new cfg (cfg.keySelector record)) w record with
    | (s', w', ok) =>
      (if ok then hs ++ [(cfg.keySelector record, s')] else hs, w', ok)

/-- `ShardedWriter::process_iter`: for each record in source order run the
loop body, stopping at the first error; on success the total record count
is returned. -/
def processIter (cfg : Config) (env : Env) :
    Registry → World → List Rec → Registry × World × Option Nat
  | hs, w, [] => (hs, w, some 0)
  | hs, w, record :: rs =>
    match processStep cfg env hs w record with
    | (hs', w', ok) =>
      if ok then
        match processIter cfg env hs' w' rs with
        | (hs2, w2, res) => (hs2, w2, res.map (· + 1))
      else (hs', w', none)

/-- Dropping the `ShardedWriter`: every shard still held is finalized. -/
def finalizeAll (cfg : Config) (hs : Registry) (w : World) : World :=
  hs.foldl (fun w2 p => Shard.finalize cfg p.2 w2) w

/-- A whole run: process the records from a fresh writer, then drop it. -/
def run (cfg : Config) (env : Env) (records : List Rec) :
    World × Option Nat :=
  match processIter cfg env [] ⟨[], []⟩ records with
  | (hs, w, res) => (finalizeAll cfg hs w, res)

/-- Feeding a list of records to a single shard, stopping at the first
failed write, as the driver does for the records of one key. -/
def runShard (cfg : Config) (env : Env) :
    Shard → World → List Rec → Shard × World × Bool
  | s, w, [] => (s, w, true)
  | s, w, record :: rs =>
    match Shard.write_record cfg env s w record with
    | (s', w', ok) =>
      if ok then runShard cfg env s' w' rs else (s', w', false)

/-- `ShardedWriter::process_file` (and `process_csv`, `process_reader`):
the source yields decode results, and the code keeps only the
successfully decoded records — `.filter_map(|r| r.ok())` — before
dispatching them to `process_iter`. -/
def process_file (cfg : Config) (env : Env) (hs : Registry) (w : World)
    (source : List (Option Rec)) : Registry × World × Option Nat :=
  processIter cfg env hs w (source.filterMap id)

/-- The number of header rows at the front of each file under `cfg`. -/
def headerLen (cfg : Config) : Nat := if cfg.headerRecord.isSome then 1 else 0

/-- The number of data records in a file: its contents minus the header. -/
def dataCount (cfg : Config) (sf : ShardFile) : Nat :=
  sf.contents.length - headerLen cfg

/-- The sink bytes the optional header of a shard costs. -/
def headerEmitted (s : Shard) : Nat :=
  match s.headerRecord with
  | some h => emittedLen h
  | none => 0

/-! ### Concrete instances used by witnesses and counterexamples -/

/-- A concrete configuration: split after 2 rows, no header, completion
callback installed, `key-seq` naming, constant key selector. -/
def cfgA : Config :=
  { splitting := .SplitAfterRows 2, headerRecord := none, delimiter := 44,
    hasNotifier := true,
    nameFile := fun k n => k ++ "-" ++ toString n,
    keySelector := fun _ => "a" }

/-- A concrete configuration splitting after every single row. -/
def cfgB : Config :=
  { splitting := .SplitAfterRows 1, headerRecord := none, delimiter := 44,
    hasNotifier := true,
    nameFile := fun k n => k ++ "-" ++ toString n,
    keySelector := fun _ => "a" }

/-- An environment whose sink factory always fails. -/
def envNoFactory : Env :=
  { factoryOk := fun _ => false, writeOk := fun _ _ _ => true }

/-- A concrete open file under the row-splitting policy. -/
def sfA : ShardFile :=
  { path := "a-0", key := "a", seq := 0, contents := [],
    sinkBytes := 0, written := 0, splitting := .SplitAfterRows 2 }

/-! ### C4: the split decision -/

/-- C4: after each successful record write the split decision is exactly:
`NoSplit` never rotates and leaves the counter alone; `SplitAfterRows n`
bumps the row counter by one and rotates iff the new count is at least
`n`; `SplitAfterBytes n` adds the record's byte length and rotates iff the
new count is at least `n`.  The record is appended to the file in every
case — the decision is computed from the post-write counter, never
before the write. -/
theorem C4_split_decision (env : Env) (sf : ShardFile) (r : Rec)
    (h : env.writeOk sf.path sf.contents.length r = true) :
    ∃ sf' rotate, sf.write_record env r = some (sf', rotate) ∧
      sf'.contents = sf.contents ++ [r] ∧
      (sf.splitting = .NoSplit → rotate = false ∧ sf'.written = sf.written) ∧
      (∀ n, sf.splitting = .SplitAfterRows n →
        sf'.written = sf.written + 1 ∧ (rotate = true ↔ n ≤ sf'.written)) ∧
      (∀ n, sf.splitting = .SplitAfterBytes n →
        sf'.written = sf.written + recByteLen r ∧
          (rotate = true ↔ n ≤ sf'.written)) := by
  cases hsp : sf.splitting with
  | NoSplit =>
    refine ⟨{ sf with
                contents := sf.contents ++ [r],
                sinkBytes := sf.sinkBytes + emittedLen r }, false,
            ?_, rfl, fun _ => ⟨rfl, rfl⟩, ?_, ?_⟩
    · simp [ShardFile.write_record, h, hsp]
    · intro n hn; cases hn
    · intro n hn; cases hn
  | SplitAfterRows rows =>
    refine ⟨{ sf with
                contents := sf.contents ++ [r],
                sinkBytes := sf.sinkBytes + emittedLen r,
                written := sf.written + 1 },
            decide (rows ≤ sf.written + 1), ?_, rfl, ?_, ?_, ?_⟩
    · simp [ShardFile.write_record, h, hsp]
    · intro hn; cases hn
    · intro n hn
      cases hn
      exact ⟨rfl, by simp⟩
    · intro n hn; cases hn
  | SplitAfterBytes bytes =>
    refine ⟨{ sf with
                contents := sf.contents ++ [r],
                sinkBytes := sf.sinkBytes + emittedLen r,
                written := sf.written + recByteLen r },
            decide (bytes ≤ sf.written + recByteLen r), ?_, rfl, ?_, ?_, ?_⟩
    · simp [ShardFile.write_record, h, hsp]
    · intro hn; cases hn
    · intro n hn; cases hn
    · intro n hn
      cases hn
      exact ⟨rfl, by simp⟩

/-- Witness for C4 at a concrete file and record. -/
theorem C4_split_decision_witness :
    ∃ sf' rotate, sfA.write_record envAll [[5, 6]] = some (sf', rotate) ∧
      sf'.contents = sfA.contents ++ [[[5, 6]]] ∧
      (sfA.splitting = .NoSplit → rotate = false ∧ sf'.written = sfA.written) ∧
      (∀ n, sfA.splitting = .SplitAfterRows n →
        sf'.written = sfA.written + 1 ∧ (rotate = true ↔ n ≤ sf'.written)) ∧
      (∀ n, sfA.splitting = .SplitAfterBytes n →
        sf'.written = sfA.written + recByteLen [[5, 6]] ∧
          (rotate = true ↔ n ≤ sf'.written)) :=
  C4_split_decision envAll sfA [[5, 6]] rfl

/-! ### C2: sink-factory failure on a closed shard -/

/-- C2 counterexample: with a failing sink factory, a write on a fresh
(closed) shard errors and leaves the shard closed, but the sequence
counter is NOT incremented — it is still 0, where the claim requires it
to have been incremented already. -/
theorem C2_counterexample :
    (Shard.write_record cfgA envNoFactory (Shard.new cfgA "a")
        ⟨[], []⟩ [[1]]).2.2 = false ∧
    (Shard.write_record cfgA envNoFactory (Shard.new cfgA "a")
        ⟨[], []⟩ [[1]]).1.currentFile = none ∧
    (Shard.write_record cfgA envNoFactory (Shard.new cfgA "a")
        ⟨[], []⟩ [[1]]).1.sequence = 0 ∧
    ¬ (Shard.write_record cfgA envNoFactory (Shard.new cfgA "a")
        ⟨[], []⟩ [[1]]).1.sequence = 1 := by
  refine ⟨rfl, rfl, rfl, by decide⟩

/-- C2 amended: when the sink factory fails on a write against a closed
shard, the write aborts with the error and the shard and world are left
entirely unchanged — still closed, and with the sequence counter NOT
incremented, so the same sequence number is used again by the next
write for that key. -/
theorem C2_amended_factory_failure (cfg : Config) (env : Env) (s : Shard)
    (w : World) (r : Rec)
    (hclosed : s.currentFile = none)
    (hfail : env.factoryOk (cfg.nameFile s.key s.sequence) = false) :
    Shard.write_record cfg env s w r = (s, w, false) := by
  simp [Shard.write_record, writeClosed, hclosed, hfail]

/-- Witness for the amended C2 at a concrete shard and environment. -/
theorem C2_amended_factory_failure_witness :
    Shard.write_record cfgA envNoFactory (Shard.new cfgA "a")
        ⟨[], []⟩ [[1]] = (Shard.new cfgA "a", ⟨[], []⟩, false) :=
  C2_amended_factory_failure cfgA envNoFactory (Shard.new cfgA "a")
    ⟨[], []⟩ [[1]] rfl rfl

/-! ### C1: completion notification -/

/-- C1: under `SplitAfterRows 1` with a completion callback installed, a
run over a single record succeeds and produces exactly one physical file
(opened, written, flushed and closed), yet the event log holds no
completion event at all: the callback that the claim (and the crate
documentation) promises exactly once per produced file is never invoked
when a file reaches its split threshold on its very first record. -/
theorem C1_notifier_skipped_on_immediate_rotation :
    (run cfgB envAll [[[7]]]).2 = some 1 ∧
    (run cfgB envAll [[[7]]]).1.closedFiles.length = 1 ∧
    (run cfgB envAll [[[7]]]).1.events = [Event.opened "a-0" "a" 0] := by
  refine ⟨rfl, rfl, rfl⟩

/-! ### C8: decoding-failure policy -/

/-- C8 counterexample: a source whose first record fails to decode is not
aborted — processing silently skips the bad record and continues,
returning success with count 1, exactly as if the bad record were absent;
the amended theorem shows no configuration can change this. -/
theorem C8_counterexample :
    (process_file cfgA envAll [] ⟨[], []⟩ [none, some [[1]]]).2.2 = some 1 ∧
    process_file cfgA envAll [] ⟨[], []⟩ [none, some [[1]]] =
      process_file cfgA envAll [] ⟨[], []⟩ [some [[1]]] :=
  ⟨rfl, rfl⟩

/-- C8 amended: the handling of an undecodable source record is fixed,
not configurable: `process_file` (and `process_csv`, `process_reader`)
always skip such a record and continue, behaving exactly as if the record
were absent from the source, for every configuration and environment. -/
theorem C8_amended_skip_is_fixed (cfg : Config) (env : Env) (hs : Registry)
    (w : World) (pre post : List (Option Rec)) :
    process_file cfg env hs w (pre ++ none :: post) =
      process_file cfg env hs w (pre ++ post) := by
  simp [process_file]

/-! ### Registry helper lemmas -/

theorem lookupShard_update_isSome (k key : String) (s : Shard) :
    ∀ hs : Registry,
      (lookupShard (updateShard hs k s) key).isSome =
        (lookupShard hs key).isSome := by
  intro hs
  induction hs with
  | nil => rfl
  | cons p rest ih =>
    obtain ⟨k0, s0⟩ := p
    simp only [updateShard]
    by_cases h : k0 = k
    · simp only [if_pos h, lookupShard]
      by_cases h2 : k0 = key <;> simp [h2]
    · simp only [if_neg h, lookupShard]
      by_cases h2 : k0 = key <;> simp [h2, ih]

theorem lookupShard_append (key : String) :
    ∀ hs l : Registry,
      lookupShard (hs ++ l) key =
        (lookupShard hs key).orElse fun _ => lookupShard l key := by
  intro hs l
  induction hs with
  | nil => simp [lookupShard]
  | cons p rest ih =>
    obtain ⟨k0, s0⟩ := p
    by_cases h : k0 = key <;> simp [lookupShard, h, ih]

/-! ### Driver-loop helper lemmas -/

theorem processIter_nil (cfg : Config) (env : Env) (hs : Registry)
    (w : World) : processIter cfg env hs w [] = (hs, w, some 0) := rfl

theorem processIter_cons (cfg : Config) (env : Env) (hs : Registry)
    (w : World) (record : Rec) (rs : List Rec) :
    processIter cfg env hs w (record :: rs) =
      match processStep cfg env hs w record with
      | (hs', w', ok) =>
        if ok then
          match processIter cfg env hs' w' rs with
          | (hs2, w2, res) => (hs2, w2, res.map (· + 1))
        else (hs', w', none) := rfl

theorem processIter_append (cfg : Config) (env : Env) :
    ∀ (xs : List Rec) (hs : Registry) (w : World) (ys : List Rec),
      processIter cfg env hs w (xs ++ ys) =
        match processIter cfg env hs w xs with
        | (hs1, w1, some k) =>
          match processIter cfg env hs1 w1 ys with
          | (hs2, w2, res) => (hs2, w2, res.map (· + k))
        | (hs1, w1, none) => (hs1, w1, none) := by
  intro xs
  induction xs with
  | nil =>
    intro hs w ys
    rcases hys : processIter cfg env hs w ys with ⟨hs2, w2, res⟩
    simp only [List.nil_append, processIter_nil, hys]
    cases res <;> simp
  | cons x xs ih =>
    intro hs w ys
    rw [List.cons_append, processIter_cons, processIter_cons]
    rcases hstep : processStep cfg env hs w x with ⟨hs', w', ok⟩
    cases ok
    · rfl
    · show (match processIter cfg env hs' w' (xs ++ ys) with
            | (hs2, w2, res) => (hs2, w2, res.map (· + 1))) =
        (match (match processIter cfg env hs' w' xs with
                | (hs2, w2, res) => (hs2, w2, res.map (· + 1))) with
         | (hs1, w1, some k) =>
           match processIter cfg env hs1 w1 ys with
           | (hs2, w2, res) => (hs2, w2, res.map (· + k))
         | (hs1, w1, none) => (hs1, w1, none))
      rw [ih]
      rcases h1 : processIter cfg env hs' w' xs with ⟨hs1, w1, res1⟩
      cases res1 with
      | none => rfl
      | some k =>
        show (match (match processIter cfg env hs1 w1 ys with
                     | (hs2, w2, res) => (hs2, w2, res.map (· + k))) with
              | (hs2, w2, res) => (hs2, w2, res.map (· + 1))) =
          (match processIter cfg env hs1 w1 ys with
           | (hs2, w2, res) => (hs2, w2, res.map (· + (k + 1))))
        rcases h2 : processIter cfg env hs1 w1 ys with ⟨hs2, w2, res2⟩
        cases res2 with
        | none => rfl
        | some j => simp [Nat.add_assoc]

theorem processIter_ok_length (cfg : Config) (env : Env) :
    ∀ (xs : List Rec) (hs : Registry) (w : World) (k : Nat),
      (processIter cfg env hs w xs).2.2 = some k → k = xs.length := by
  intro xs
  induction xs with
  | nil =>
    intro hs w k h
    simp only [processIter_nil, Option.some.injEq] at h
    simp [h.symm]
  | cons x xs ih =>
    intro hs w k h
    rw [processIter_cons] at h
    rcases hstep : processStep cfg env hs w x with ⟨hs', w', ok⟩
    rw [hstep] at h
    cases ok
    · simp at h
    · rcases h1 : processIter cfg env hs' w' xs with ⟨hs1, w1, res1⟩
      simp only [if_true] at h
      rw [h1] at h
      cases res1 with
      | none => simp at h
      | some j =>
        simp at h
        have := ih hs' w' j (by rw [h1])
        simp only [List.length_cons]
        omega

/-! ### C5: fail-fast driver loop -/

/-- C5: the driver processes records in source order — running it on
`xs ++ ys` first runs it on `xs`, and only when that did not error does it
continue with `ys` from the reached state, so the first error stops
processing immediately and is returned with no later record processed;
and a run that consumes its whole input without error returns `some` of
the total record count. -/
theorem C5_fail_fast_and_total_count (cfg : Config) (env : Env)
    (hs : Registry) (w : World) (xs ys : List Rec) :
    (processIter cfg env hs w (xs ++ ys) =
      match processIter cfg env hs w xs with
      | (hs1, w1, some k) =>
        match processIter cfg env hs1 w1 ys with
        | (hs2, w2, res) => (hs2, w2, res.map (· + k))
      | (hs1, w1, none) => (hs1, w1, none)) ∧
    (∀ k, (processIter cfg env hs w xs).2.2 = some k → k = xs.length) :=
  ⟨processIter_append cfg env xs hs w ys,
   fun k h => processIter_ok_length cfg env xs hs w k h⟩

/-- Witness for C5: a concrete two-record source is counted as 2. -/
theorem C5_fail_fast_and_total_count_witness :
    (2 : Nat) = ([[[1]], [[2]]] : List Rec).length :=
  (C5_fail_fast_and_total_count cfgA envAll [] ⟨[], []⟩
      [[[1]], [[2]]] []).2 2 rfl

/-! ### Registry growth -/

theorem processStep_seen_mono (cfg : Config) (env : Env) (hs : Registry)
    (w : World) (r : Rec) (key : String)
    (h : is_shard_key_seen hs key = true) :
    is_shard_key_seen (processStep cfg env hs w r).1 key = true := by
  unfold processStep
  cases hl : lookupShard hs (cfg.keySelector r) with
  | some s =>
    rcases hw : Shard.write_record cfg env s w r with ⟨s', w', ok⟩
    simpa [is_shard_key_seen, lookupShard_update_isSome] using h
  | none =>
    rcases hw : Shard.write_record cfg env (Shard.new cfg (cfg.keySelector r)) w r
      with ⟨s', w', ok⟩
    obtain ⟨s0, hs0⟩ := Option.isSome_iff_exists.mp h
    cases ok
    · simpa [is_shard_key_seen] using h
    · simp [is_shard_key_seen, lookupShard_append, hs0]

theorem processStep_inserts_key (cfg : Config) (env : Env) (hs : Registry)
    (w : World) (r : Rec)
    (hok : (processStep cfg env hs w r).2.2 = true) :
    is_shard_key_seen (processStep cfg env hs w r).1 (cfg.keySelector r) = true := by
  unfold processStep at hok ⊢
  cases hl : lookupShard hs (cfg.keySelector r) with
  | some s =>
    show is_shard_key_seen (match Shard.write_record cfg env s w r with
      | (s', w', ok) =>
        (updateShard hs (cfg.keySelector r) s', w', ok)).1 (cfg.keySelector r) = true
    rcases hw : Shard.write_record cfg env s w r with ⟨s', w', ok⟩
    have hsm : (lookupShard hs (cfg.keySelector r)).isSome = true := by simp [hl]
    simpa [is_shard_key_seen, lookupShard_update_isSome] using hsm
  | none =>
    rw [hl] at hok
    show is_shard_key_seen (match Shard.write_record cfg env
          (Shard.new cfg (cfg.keySelector r)) w r with
      | (s', w', ok) =>
        (if ok then hs ++ [(cfg.keySelector r, s')] else hs, w',
          ok)).1 (cfg.keySelector r) = true
    rcases hw : Shard.write_record cfg env (Shard.new cfg (cfg.keySelector r)) w r
      with ⟨s', w', ok⟩
    rw [hw] at hok
    cases ok
    · simp at hok
    · simp [is_shard_key_seen, lookupShard_append, hl, lookupShard]

theorem processIter_seen_mono (cfg : Config) (env : Env) :
    ∀ (records : List Rec) (hs : Registry) (w : World) (key : String),
      is_shard_key_seen hs key = true →
      is_shard_key_seen (processIter cfg env hs w records).1 key = true := by
  intro records
  induction records with
  | nil =>
    intro hs w key h
    simpa [processIter_nil] using h
  | cons r rs ih =>
    intro hs w key h
    rw [processIter_cons]
    rcases hstep : processStep cfg env hs w r with ⟨hs', w', ok⟩
    have hmono := processStep_seen_mono cfg env hs w r key h
    rw [hstep] at hmono
    cases ok
    · exact hmono
    · show is_shard_key_seen (match processIter cfg env hs' w' rs with
        | (hs2, w2, res) => (hs2, w2, res.map (· + 1))).1 key = true
      have H := ih hs' w' key hmono
      rcases h1 : processIter cfg env hs' w' rs with ⟨hs2, w2, res⟩
      rw [h1] at H
      exact H

theorem processIter_seen_of_mem (cfg : Config) (env : Env) :
    ∀ (records : List Rec) (hs : Registry) (w : World) (key : String),
      (processIter cfg env hs w records).2.2.isSome = true →
      (∃ r ∈ records, cfg.keySelector r = key) →
      is_shard_key_seen (processIter cfg env hs w records).1 key = true := by
  intro records
  induction records with
  | nil =>
    intro hs w key _ hmem
    simp at hmem
  | cons r rs ih =>
    intro hs w key hsome hmem
    rw [processIter_cons] at hsome ⊢
    rcases hstep : processStep cfg env hs w r with ⟨hs', w', ok⟩
    rw [hstep] at hsome
    cases ok
    · simp at hsome
    · replace hsome : (match processIter cfg env hs' w' rs with
        | (hs2, w2, res) => (hs2, w2, res.map (· + 1))).2.2.isSome = true := hsome
      show is_shard_key_seen (match processIter cfg env hs' w' rs with
        | (hs2, w2, res) => (hs2, w2, res.map (· + 1))).1 key = true
      rcases h1 : processIter cfg env hs' w' rs with ⟨hs2, w2, res⟩
      rw [h1] at hsome
      replace hsome : res.isSome = true := by simpa using hsome
      rcases hmem with ⟨r0, hr0, hkey⟩
      rcases List.mem_cons.mp hr0 with rfl | hr0rs
      · have hseen : is_shard_key_seen hs' key = true := by
          have := processStep_inserts_key cfg env hs w r0 (by rw [hstep])
          rw [hstep] at this
          rwa [hkey] at this
        have H := processIter_seen_mono cfg env rs hs' w' key hseen
        rw [h1] at H
        exact H
      · have H := ih hs' w' key (by rw [h1]; exact hsome) ⟨r0, hr0rs, hkey⟩
        rw [h1] at H
        exact H

/-- C7: the set of keys known to the registry only grows.  A fresh writer
knows no key; any key already known is still known after processing any
further records (with or without errors); and after a run that completes
without error, every key selected by some record of the source is known. -/
theorem C7_registry_only_grows (cfg : Config) (env : Env) (hs : Registry)
    (w : World) (records : List Rec) (key : String) :
    is_shard_key_seen [] key = false ∧
    (is_shard_key_seen hs key = true →
      is_shard_key_seen (processIter cfg env hs w records).1 key = true) ∧
    ((processIter cfg env hs w records).2.2.isSome = true →
      (∃ r ∈ records, cfg.keySelector r = key) →
      is_shard_key_seen (processIter cfg env hs w records).1 key = true) :=
  ⟨rfl, fun h => processIter_seen_mono cfg env records hs w key h,
   fun hsome hmem => processIter_seen_of_mem cfg env records hs w key hsome hmem⟩

/-- Witness for C7: after successfully processing one record keyed "a"
from a fresh writer, "a" is seen. -/
theorem C7_registry_only_grows_witness :
    is_shard_key_seen (processIter cfgA envAll [] ⟨[], []⟩ [[[1]]]).1 "a" = true :=
  (C7_registry_only_grows cfgA envAll [] ⟨[], []⟩ [[[1]]] "a").2.2 rfl
    ⟨[[1]], by simp, rfl⟩

/-! ### C10: a failed first write for an unseen key -/

theorem processStep_vacant (cfg : Config) (env : Env) (hs : Registry)
    (w : World) (r : Rec)
    (hnew : lookupShard hs (cfg.keySelector r) = none) :
    processStep cfg env hs w r =
      (match Shard.write_record cfg env (Shard.new cfg (cfg.keySelector r)) w r with
       | (s', w', ok) =>
         (if ok then hs ++ [(cfg.keySelector r, s')] else hs, w', ok)) := by
  simp [processStep, hnew]

theorem processIter_singleton (cfg : Config) (env : Env) (hs : Registry)
    (w : World) (r : Rec) :
    processIter cfg env hs w [r] =
      (match processStep cfg env hs w r with
       | (hs', w', ok) => if ok then (hs', w', some 1) else (hs', w', none)) := by
  rw [processIter_cons]
  rcases h : processStep cfg env hs w r with ⟨hs', w', ok⟩
  cases ok <;> rfl

theorem openAndWrite_success (env : Env) (s : Shard) (w : World)
    (sf : ShardFile) (r : Rec) (s' : Shard) (w' : World)
    (h : openAndWrite env s w sf r = (s', w', true)) :
    s'.sequence = s.sequence + 1 ∧ w'.events = w.events := by
  unfold openAndWrite at h
  rcases hwr : ShardFile.write_record env sf r with _ | ⟨sf1, sc⟩
  · rw [hwr] at h
    simp at h
  · rw [hwr] at h
    cases sc
    · replace h : ({ s with
          sequence := s.sequence + 1,
          currentFile := some sf1 }, w, true) = (s', w', true) := h
      simp only [Prod.mk.injEq] at h
      obtain ⟨h1, h2, -⟩ := h
      exact ⟨by rw [← h1], by rw [← h2]⟩
    · replace h : ({ s with sequence := s.sequence + 1 },
          { w with closedFiles := w.closedFiles ++ [sf1] }, true) =
            (s', w', true) := h
      simp only [Prod.mk.injEq] at h
      obtain ⟨h1, h2, -⟩ := h
      exact ⟨by rw [← h1], by rw [← h2]⟩

theorem write_record_closed_success (cfg : Config) (env : Env) (s : Shard)
    (w : World) (r : Rec) (s' : Shard) (w' : World)
    (hclosed : s.currentFile = none)
    (hw : Shard.write_record cfg env s w r = (s', w', true)) :
    s'.sequence = s.sequence + 1 ∧
    w'.events = w.events ++
      [Event.opened (cfg.nameFile s.key s.sequence) s.key s.sequence] := by
  unfold Shard.write_record at hw
  rw [hclosed] at hw
  replace hw : writeClosed cfg env s w r = (s', w', true) := hw
  unfold writeClosed at hw
  by_cases hf : env.factoryOk (cfg.nameFile s.key s.sequence) = true
  · rw [if_pos hf] at hw
    cases hh : s.headerRecord with
    | none =>
      rw [hh] at hw
      replace hw : openAndWrite env s (openedWorld cfg s w)
          (freshFile cfg s [] 0) r = (s', w', true) := hw
      obtain ⟨h1, h2⟩ := openAndWrite_success env s (openedWorld cfg s w)
        (freshFile cfg s [] 0) r s' w' hw
      exact ⟨h1, by simp [h2, openedWorld]⟩
    | some hd =>
      rw [hh] at hw
      replace hw : (if env.writeOk (cfg.nameFile s.key s.sequence) 0 hd = true
          then openAndWrite env s (openedWorld cfg s w)
            (freshFile cfg s [hd] (emittedLen hd)) r
          else (s, openedWorld cfg s w, false)) = (s', w', true) := hw
      by_cases hwh : env.writeOk (cfg.nameFile s.key s.sequence) 0 hd = true
      · rw [if_pos hwh] at hw
        obtain ⟨h1, h2⟩ := openAndWrite_success env s (openedWorld cfg s w)
          (freshFile cfg s [hd] (emittedLen hd)) r s' w' hw
        exact ⟨h1, by simp [h2, openedWorld]⟩
      · rw [if_neg hwh] at hw
        simp at hw
  · rw [if_neg hf] at hw
    simp at hw

/-- C10: when the very first write for a previously unseen key fails, no
shard for that key is inserted: the registry is left exactly as it was
and the key is still not seen; and a later record with the same key goes
through a fresh shard whose numbering restarts at 0 — if it succeeds, the
registry then holds a shard with sequence 1 for that key and the sink
factory was invoked at the name built from sequence number 0. -/
theorem C10_failed_first_write (cfg : Config) (env : Env) (hs : Registry)
    (w : World) (r : Rec)
    (hnew : lookupShard hs (cfg.keySelector r) = none)
    (hfail : (processIter cfg env hs w [r]).2.2 = none) :
    (processIter cfg env hs w [r]).1 = hs ∧
    is_shard_key_seen (processIter cfg env hs w [r]).1 (cfg.keySelector r) = false ∧
    (∀ (w2 : World) (r' : Rec), cfg.keySelector r' = cfg.keySelector r →
      (processIter cfg env hs w2 [r']).2.2 = some 1 →
      ∃ s', lookupShard (processIter cfg env hs w2 [r']).1
              (cfg.keySelector r) = some s' ∧
        s'.sequence = 1 ∧
        (processIter cfg env hs w2 [r']).2.1.events = w2.events ++
          [Event.opened (cfg.nameFile (cfg.keySelector r) 0)
            (cfg.keySelector r) 0]) := by
  have h1 := processIter_singleton cfg env hs w r
  rcases hw : Shard.write_record cfg env (Shard.new cfg (cfg.keySelector r)) w r
    with ⟨s', w', ok⟩
  have hstep : processStep cfg env hs w r =
      (if ok then hs ++ [(cfg.keySelector r, s')] else hs, w', ok) := by
    rw [processStep_vacant cfg env hs w r hnew, hw]
  cases ok
  · rw [h1, hstep] at hfail ⊢
    refine ⟨rfl, by simp [is_shard_key_seen, hnew], ?_⟩
    intro w2 r' hk hsucc
    have h2 := processIter_singleton cfg env hs w2 r'
    have hnew' : lookupShard hs (cfg.keySelector r') = none := by
      rw [hk]; exact hnew
    rcases hw2 : Shard.write_record cfg env (Shard.new cfg (cfg.keySelector r')) w2 r'
      with ⟨s2, w2', ok2⟩
    have hstep2 : processStep cfg env hs w2 r' =
        (if ok2 then hs ++ [(cfg.keySelector r', s2)] else hs, w2', ok2) := by
      rw [processStep_vacant cfg env hs w2 r' hnew', hw2]
    cases ok2
    · rw [h2, hstep2] at hsucc
      simp at hsucc
    · obtain ⟨hseq, hev⟩ := write_record_closed_success cfg env
        (Shard.new cfg (cfg.keySelector r')) w2 r' s2 w2' rfl hw2
      refine ⟨s2, ?_, ?_, ?_⟩
      · rw [h2, hstep2]
        show lookupShard (hs ++ [(cfg.keySelector r', s2)]) (cfg.keySelector r) = some s2
        rw [hk] at hnew' ⊢
        simp [lookupShard_append, hnew, lookupShard]
      · simpa using hseq
      · rw [h2, hstep2]
        show w2'.events = _
        rw [hev, hk]
        rfl
  · rw [h1, hstep] at hfail
    simp at hfail

/-- An environment in which writing the record `[[7]]` always fails and
everything else succeeds. -/
def envNot7 : Env :=
  { factoryOk := fun _ => true, writeOk := fun _ _ r => decide ¬ r = [[7]] }

/-- Witness for C10: the record `[[7]]` fails its write under `envNot7`,
and the registry of a fresh writer is left empty with key "a" unseen. -/
theorem C10_failed_first_write_witness :
    (processIter cfgA envNot7 [] ⟨[], []⟩ [[[7]]]).1 = [] ∧
    is_shard_key_seen (processIter cfgA envNot7 [] ⟨[], []⟩ [[[7]]]).1
      (cfgA.keySelector [[7]]) = false :=
  ⟨(C10_failed_first_write cfgA envNot7 [] ⟨[], []⟩ [[7]] rfl rfl).1,
   (C10_failed_first_write cfgA envNot7 [] ⟨[], []⟩ [[7]] rfl rfl).2.1⟩

/-! ### C9: byte accounting under SplitAfterBytes -/

theorem ShardFile_write_bytes (env : Env) (sf : ShardFile) (r : Rec)
    (n : Nat) (sf' : ShardFile) (rot : Bool)
    (hsp : sf.splitting = .SplitAfterBytes n)
    (hwr : sf.write_record env r = some (sf', rot)) :
    sf'.written = sf.written + recByteLen r ∧
    sf'.sinkBytes = sf.sinkBytes + emittedLen r := by
  unfold ShardFile.write_record at hwr
  by_cases hok : env.writeOk sf.path sf.contents.length r = true
  · rw [if_pos hok, hsp] at hwr
    simp only [Option.some.injEq, Prod.mk.injEq] at hwr
    obtain ⟨h1, -⟩ := hwr
    exact ⟨by rw [← h1], by rw [← h1]⟩
  · rw [if_neg hok] at hwr
    cases hwr

theorem openAndWrite_currentFile (env : Env) (s : Shard) (w : World)
    (sf : ShardFile) (r : Rec) (sf' : ShardFile)
    (hclosed : s.currentFile = none)
    (h : (openAndWrite env s w sf r).1.currentFile = some sf') :
    sf.write_record env r = some (sf', false) := by
  unfold openAndWrite at h
  rcases hwr : ShardFile.write_record env sf r with _ | ⟨sf1, sc⟩
  · rw [hwr] at h
    replace h : s.currentFile = some sf' := h
    rw [hclosed] at h
    cases h
  · rw [hwr] at h
    cases sc
    · replace h : some sf1 = some sf' := h
      rw [Option.some.injEq] at h
      rw [h]
    · replace h : s.currentFile = some sf' := h
      rw [hclosed] at h
      cases h

/-- C9: under `SplitAfterBytes n`, every successful record write charges
the counter exactly `recByteLen r` — the sum of the byte lengths of the
record's fields, with no delimiter and no terminator — while the sink
itself receives `emittedLen r` bytes (fields plus delimiters plus
terminator); and the file opened by a write on a closed shard starts its
counter at 0, so after that first record the counter is exactly
`recByteLen r` even though the sink already holds the header's bytes on
top of the record's. -/
theorem C9_bytes_counter (cfg : Config) (env : Env) :
    (∀ (sf : ShardFile) (r : Rec) (n : Nat) (sf' : ShardFile) (rot : Bool),
      sf.splitting = .SplitAfterBytes n →
      sf.write_record env r = some (sf', rot) →
      sf'.written = sf.written + recByteLen r ∧
      recByteLen r = (r.map List.length).sum ∧
      sf'.sinkBytes = sf.sinkBytes + emittedLen r) ∧
    (∀ (s : Shard) (w : World) (r : Rec) (n : Nat) (sf' : ShardFile),
      s.currentFile = none →
      s.splitting = .SplitAfterBytes n →
      (Shard.write_record cfg env s w r).1.currentFile = some sf' →
      sf'.written = recByteLen r ∧
      sf'.sinkBytes = headerEmitted s + emittedLen r) := by
  constructor
  · intro sf r n sf' rot hsp hwr
    obtain ⟨h1, h2⟩ := ShardFile_write_bytes env sf r n sf' rot hsp hwr
    exact ⟨h1, rfl, h2⟩
  · intro s w r n sf' hclosed hsp hcf
    unfold Shard.write_record at hcf
    rw [hclosed] at hcf
    replace hcf : (writeClosed cfg env s w r).1.currentFile = some sf' := hcf
    unfold writeClosed at hcf
    by_cases hf : env.factoryOk (cfg.nameFile s.key s.sequence) = true
    · rw [if_pos hf] at hcf
      cases hh : s.headerRecord with
      | none =>
        rw [hh] at hcf
        replace hcf : (openAndWrite env s (openedWorld cfg s w)
            (freshFile cfg s [] 0) r).1.currentFile = some sf' := hcf
        have hwr := openAndWrite_currentFile env s (openedWorld cfg s w)
          (freshFile cfg s [] 0) r sf' hclosed hcf
        obtain ⟨h1, h2⟩ := ShardFile_write_bytes env (freshFile cfg s [] 0)
          r n sf' false (by simpa [freshFile] using hsp) hwr
        refine ⟨by simpa [freshFile] using h1, ?_⟩
        rw [h2]
        simp [freshFile, headerEmitted, hh]
      | some hd =>
        rw [hh] at hcf
        replace hcf : (if env.writeOk (cfg.nameFile s.key s.sequence) 0 hd =
              true then
            openAndWrite env s (openedWorld cfg s w)
              (freshFile cfg s [hd] (emittedLen hd)) r
          else (s, openedWorld cfg s w,
            false)).1.currentFile = some sf' := hcf
        by_cases hwh : env.writeOk (cfg.nameFile s.key s.sequence) 0 hd = true
        · rw [if_pos hwh] at hcf
          have hwr := openAndWrite_currentFile env s (openedWorld cfg s w)
            (freshFile cfg s [hd] (emittedLen hd)) r sf' hclosed hcf
          obtain ⟨h1, h2⟩ := ShardFile_write_bytes env
            (freshFile cfg s [hd] (emittedLen hd)) r n sf' false
            (by simpa [freshFile] using hsp) hwr
          refine ⟨by simpa [freshFile] using h1, ?_⟩
          rw [h2]
          simp [freshFile, headerEmitted, hh]
        · rw [if_neg hwh] at hcf
          replace hcf : s.currentFile = some sf' := hcf
          rw [hclosed] at hcf
          cases hcf
    · rw [if_neg hf] at hcf
      replace hcf : s.currentFile = some sf' := hcf
      rw [hclosed] at hcf
      cases hcf

/-- A concrete open file under the 10-byte splitting policy. -/
def sfB : ShardFile :=
  { path := "a-0", key := "a", seq := 0, contents := [],
    sinkBytes := 0, written := 0, splitting := .SplitAfterBytes 10 }

/-- A concrete configuration: split after 10 bytes, header `[[72, 73]]`. -/
def cfgH : Config :=
  { splitting := .SplitAfterBytes 10, headerRecord := some [[72, 73]],
    delimiter := 44, hasNotifier := true,
    nameFile := fun k n => k ++ "-" ++ toString n,
    keySelector := fun _ => "a" }

/-- Witness for C9 at a concrete file, record, and header configuration. -/
theorem C9_bytes_counter_witness :
    (∃ sf' : ShardFile,
      sfB.write_record envAll [[1, 2], [3]] = some (sf', false) ∧
      sf'.written = sfB.written + recByteLen [[1, 2], [3]] ∧
      sf'.sinkBytes = sfB.sinkBytes + emittedLen [[1, 2], [3]]) ∧
    (∃ sf2 : ShardFile,
      (Shard.write_record cfgH envAll (Shard.new cfgH "a")
          ⟨[], []⟩ [[1, 2], [3]]).1.currentFile = some sf2 ∧
      sf2.written = recByteLen [[1, 2], [3]] ∧
      sf2.sinkBytes = headerEmitted (Shard.new cfgH "a") +
        emittedLen [[1, 2], [3]]) := by
  constructor
  · refine ⟨_, rfl, ?_⟩
    have h := (C9_bytes_counter cfgH envAll).1 sfB [[1, 2], [3]] 10 _ false
      rfl rfl
    exact ⟨h.1, h.2.2⟩
  · refine ⟨_, rfl, ?_⟩
    exact (C9_bytes_counter cfgH envAll).2 (Shard.new cfgH "a") ⟨[], []⟩
      [[1, 2], [3]] 10 _ rfl rfl rfl

/-! ### C6: the header is first in every file -/

/-- The file's first entry is the record `hd`. -/
def fileHeadOk (hd : Rec) (sf : ShardFile) : Prop :=
  sf.contents.head? = some hd

/-- Every closed file of the world starts with `hd`. -/
def worldHeadOk (hd : Rec) (w : World) : Prop :=
  ∀ sf ∈ w.closedFiles, fileHeadOk hd sf

/-- The shard carries header `hd` and its open file, if any, starts with
`hd`. -/
def shardHeadOk (hd : Rec) (s : Shard) : Prop :=
  s.headerRecord = some hd ∧
  ∀ sf, s.currentFile = some sf → fileHeadOk hd sf

/-- Every shard of the registry satisfies `shardHeadOk`. -/
def regHeadOk (hd : Rec) (hs : Registry) : Prop :=
  ∀ p ∈ hs, shardHeadOk hd p.2

theorem head?_append_keep {α : Type} (l l' : List α) (a : α)
    (h : l.head? = some a) : (l ++ l').head? = some a := by
  cases l with
  | nil => cases h
  | cons x xs => simpa using h

theorem ShardFile_write_head (env : Env) (sf : ShardFile) (r : Rec)
    (sf' : ShardFile) (rot : Bool) (hd : Rec)
    (hhead : fileHeadOk hd sf)
    (hwr : sf.write_record env r = some (sf', rot)) :
    fileHeadOk hd sf' := by
  unfold ShardFile.write_record at hwr
  by_cases hok : env.writeOk sf.path sf.contents.length r = true
  · rw [if_pos hok] at hwr
    cases hsp : sf.splitting with
    | NoSplit =>
      rw [hsp] at hwr
      simp only [Option.some.injEq, Prod.mk.injEq] at hwr
      obtain ⟨h1, -⟩ := hwr
      show sf'.contents.head? = some hd
      rw [← h1]
      exact head?_append_keep sf.contents [r] hd hhead
    | SplitAfterRows rows =>
      rw [hsp] at hwr
      simp only [Option.some.injEq, Prod.mk.injEq] at hwr
      obtain ⟨h1, -⟩ := hwr
      show sf'.contents.head? = some hd
      rw [← h1]
      exact head?_append_keep sf.contents [r] hd hhead
    | SplitAfterBytes bytes =>
      rw [hsp] at hwr
      simp only [Option.some.injEq, Prod.mk.injEq] at hwr
      obtain ⟨h1, -⟩ := hwr
      show sf'.contents.head? = some hd
      rw [← h1]
      exact head?_append_keep sf.contents [r] hd hhead
  · rw [if_neg hok] at hwr
    cases hwr

theorem openAndWrite_headOk (env : Env) (s : Shard) (w : World)
    (sf0 : ShardFile) (r : Rec) (hd : Rec)
    (hclosed : s.currentFile = none)
    (hheader : s.headerRecord = some hd)
    (hsf0 : fileHeadOk hd sf0)
    (hw : worldHeadOk hd w) :
    shardHeadOk hd (openAndWrite env s w sf0 r).1 ∧
    worldHeadOk hd (openAndWrite env s w sf0 r).2.1 := by
  unfold openAndWrite
  rcases hwr : ShardFile.write_record env sf0 r with _ | ⟨sf1, sc⟩
  · refine ⟨⟨hheader, fun sf2 h2 => absurd h2 (by simp [hclosed])⟩, ?_⟩
    intro sf2 h2
    rcases List.mem_append.mp h2 with h2 | h2
    · exact hw sf2 h2
    · have h3 : sf2 = sf0 := by simpa using h2
      rw [h3]
      exact hsf0
  · cases sc
    · refine ⟨⟨hheader, fun sf2 h2 => ?_⟩, hw⟩
      have h3 : sf1 = sf2 := by simpa using h2
      rw [← h3]
      exact ShardFile_write_head env sf0 r sf1 false hd hsf0 hwr
    · refine ⟨⟨hheader, fun sf2 h2 => absurd h2 (by simp [hclosed])⟩, ?_⟩
      intro sf2 h2
      rcases List.mem_append.mp h2 with h2 | h2
      · exact hw sf2 h2
      · have h3 : sf2 = sf1 := by simpa using h2
        rw [h3]
        exact ShardFile_write_head env sf0 r sf1 true hd hsf0 hwr

theorem Shard_write_headOk (cfg : Config) (env : Env) (s : Shard)
    (w : World) (r : Rec) (hd : Rec)
    (hsOk : shardHeadOk hd s) (hw : worldHeadOk hd w) :
    shardHeadOk hd (Shard.write_record cfg env s w r).1 ∧
    worldHeadOk hd (Shard.write_record cfg env s w r).2.1 := by
  unfold Shard.write_record
  cases hcf : s.currentFile with
  | some sf =>
    show shardHeadOk hd (writeOpen cfg env s w sf r).1 ∧
      worldHeadOk hd (writeOpen cfg env s w sf r).2.1
    unfold writeOpen
    rcases hwr : ShardFile.write_record env sf r with _ | ⟨sf1, sc⟩
    · exact ⟨hsOk, hw⟩
    · have hsf1 : fileHeadOk hd sf1 :=
        ShardFile_write_head env sf r sf1 sc hd (hsOk.2 sf hcf) hwr
      cases sc
      · refine ⟨⟨hsOk.1, fun sf2 h2 => ?_⟩, hw⟩
        have h3 : sf1 = sf2 := by simpa using h2
        rw [← h3]
        exact hsf1
      · refine ⟨⟨hsOk.1, fun sf2 h2 => absurd h2 (by simp)⟩, ?_⟩
        intro sf2 h2
        rcases List.mem_append.mp h2 with h2 | h2
        · exact hw sf2 h2
        · have h3 : sf2 = sf1 := by simpa using h2
          rw [h3]
          exact hsf1
  | none =>
    show shardHeadOk hd (writeClosed cfg env s w r).1 ∧
      worldHeadOk hd (writeClosed cfg env s w r).2.1
    unfold writeClosed
    by_cases hf : env.factoryOk (cfg.nameFile s.key s.sequence) = true
    · rw [if_pos hf]
      cases hh : s.headerRecord with
      | none =>
        have h4 := hsOk.1
        rw [hh] at h4
        cases h4
      | some hd' =>
        have hd'eq : hd' = hd := by
          have h4 := hsOk.1
          rw [hh] at h4
          exact Option.some.inj h4
        show shardHeadOk hd
            (if env.writeOk (cfg.nameFile s.key s.sequence) 0 hd' = true
              then openAndWrite env s (openedWorld cfg s w)
                (freshFile cfg s [hd'] (emittedLen hd')) r
              else (s, openedWorld cfg s w, false)).1 ∧
          worldHeadOk hd
            (if env.writeOk (cfg.nameFile s.key s.sequence) 0 hd' = true
              then openAndWrite env s (openedWorld cfg s w)
                (freshFile cfg s [hd'] (emittedLen hd')) r
              else (s, openedWorld cfg s w, false)).2.1
        by_cases hwh : env.writeOk (cfg.nameFile s.key s.sequence) 0 hd' = true
        · rw [if_pos hwh]
          exact openAndWrite_headOk env s (openedWorld cfg s w)
            (freshFile cfg s [hd'] (emittedLen hd')) r hd hcf hsOk.1
            (by show some hd' = some hd; rw [hd'eq]) hw
        · rw [if_neg hwh]
          exact ⟨hsOk, hw⟩
    · rw [if_neg hf]
      exact ⟨hsOk, hw⟩

theorem lookupShard_mem (key : String) (s : Shard) :
    ∀ hs : Registry, lookupShard hs key = some s → (key, s) ∈ hs := by
  intro hs
  induction hs with
  | nil => intro h; cases h
  | cons p rest ih =>
    obtain ⟨k0, s0⟩ := p
    intro h
    unfold lookupShard at h
    by_cases hk : k0 = key
    · rw [if_pos hk] at h
      rw [Option.some.injEq] at h
      rw [← hk, ← h]
      exact List.mem_cons_self _ _
    · rw [if_neg hk] at h
      exact List.mem_cons_of_mem _ (ih h)

theorem mem_updateShard (key : String) (s' : Shard) :
    ∀ (hs : Registry) (p : String × Shard), p ∈ updateShard hs key s' →
      p.2 = s' ∨ p ∈ hs := by
  intro hs
  induction hs with
  | nil => intro p hp; cases hp
  | cons q rest ih =>
    obtain ⟨k0, s0⟩ := q
    intro p hp
    unfold updateShard at hp
    by_cases hk : k0 = key
    · rw [if_pos hk] at hp
      rcases List.mem_cons.mp hp with rfl | hp
      · exact Or.inl rfl
      · exact Or.inr (List.mem_cons_of_mem _ hp)
    · rw [if_neg hk] at hp
      rcases List.mem_cons.mp hp with rfl | hp
      · exact Or.inr (List.mem_cons_self _ _)
      · rcases ih p hp with h | h
        · exact Or.inl h
        · exact Or.inr (List.mem_cons_of_mem _ h)

theorem processStep_headOk (cfg : Config) (env : Env) (hs : Registry)
    (w : World) (r : Rec) (hd : Rec)
    (hcfg : cfg.headerRecord = some hd)
    (hreg : regHeadOk hd hs) (hw : worldHeadOk hd w) :
    regHeadOk hd (processStep cfg env hs w r).1 ∧
    worldHeadOk hd (processStep cfg env hs w r).2.1 := by
  unfold processStep
  cases hl : lookupShard hs (cfg.keySelector r) with
  | some s =>
    show regHeadOk hd (match Shard.write_record cfg env s w r with
        | (s', w', ok) => (updateShard hs (cfg.keySelector r) s', w', ok)).1 ∧
      worldHeadOk hd (match Shard.write_record cfg env s w r with
        | (s', w', ok) => (updateShard hs (cfg.keySelector r) s', w', ok)).2.1
    have hsOk : shardHeadOk hd s :=
      hreg (cfg.keySelector r, s) (lookupShard_mem (cfg.keySelector r) s hs hl)
    have hpres := Shard_write_headOk cfg env s w r hd hsOk hw
    rcases hw2 : Shard.write_record cfg env s w r with ⟨s', w', ok⟩
    rw [hw2] at hpres
    refine ⟨?_, hpres.2⟩
    intro p hp
    rcases mem_updateShard (cfg.keySelector r) s' hs p hp with h | h
    · rw [h]
      exact hpres.1
    · exact hreg p h
  | none =>
    show regHeadOk hd (match Shard.write_record cfg env
          (Shard.new cfg (cfg.keySelector r)) w r with
        | (s', w', ok) =>
          (if ok then hs ++ [(cfg.keySelector r, s')] else hs, w', ok)).1 ∧
      worldHeadOk hd (match Shard.write_record cfg env
          (Shard.new cfg (cfg.keySelector r)) w r with
        | (s', w', ok) =>
          (if ok then hs ++ [(cfg.keySelector r, s')] else hs, w', ok)).2.1
    have hs0 : shardHeadOk hd (Shard.new cfg (cfg.keySelector r)) :=
      ⟨by simp [Shard.new, hcfg], fun sf h2 => by simp [Shard.new] at h2⟩
    have hpres := Shard_write_headOk cfg env (Shard.new cfg (cfg.keySelector r))
      w r hd hs0 hw
    rcases hw2 : Shard.write_record cfg env (Shard.new cfg (cfg.keySelector r)) w r
      with ⟨s', w', ok⟩
    rw [hw2] at hpres
    cases ok
    · exact ⟨hreg, hpres.2⟩
    · refine ⟨?_, hpres.2⟩
      intro p hp
      rcases List.mem_append.mp hp with hp | hp
      · exact hreg p hp
      · have h3 : p = (cfg.keySelector r, s') := by simpa using hp
        rw [h3]
        exact hpres.1

theorem processIter_headOk (cfg : Config) (env : Env) :
    ∀ (records : List Rec) (hs : Registry) (w : World) (hd : Rec),
      cfg.headerRecord = some hd →
      regHeadOk hd hs → worldHeadOk hd w →
      regHeadOk hd (processIter cfg env hs w records).1 ∧
      worldHeadOk hd (processIter cfg env hs w records).2.1 := by
  intro records
  induction records with
  | nil =>
    intro hs w hd _ hreg hw
    exact ⟨hreg, hw⟩
  | cons r rs ih =>
    intro hs w hd hcfg hreg hw
    rw [processIter_cons]
    have hpres := processStep_headOk cfg env hs w r hd hcfg hreg hw
    rcases hstep : processStep cfg env hs w r with ⟨hs', w', ok⟩
    rw [hstep] at hpres
    cases ok
    · exact hpres
    · show regHeadOk hd (match processIter cfg env hs' w' rs with
          | (hs2, w2, res) => (hs2, w2, res.map (· + 1))).1 ∧
        worldHeadOk hd (match processIter cfg env hs' w' rs with
          | (hs2, w2, res) => (hs2, w2, res.map (· + 1))).2.1
      have H := ih hs' w' hd hcfg hpres.1 hpres.2
      rcases h1 : processIter cfg env hs' w' rs with ⟨hs2, w2, res⟩
      rw [h1] at H
      exact H

theorem Shard_finalize_headOk (cfg : Config) (s : Shard) (w : World)
    (hd : Rec) (hsOk : shardHeadOk hd s) (hw : worldHeadOk hd w) :
    worldHeadOk hd (Shard.finalize cfg s w) := by
  unfold Shard.finalize
  cases hcf : s.currentFile with
  | none => exact hw
  | some sf =>
    intro sf2 h2
    rcases List.mem_append.mp h2 with h2 | h2
    · exact hw sf2 h2
    · have h3 : sf2 = sf := by simpa using h2
      rw [h3]
      exact hsOk.2 sf hcf

theorem finalizeAll_headOk (cfg : Config) (hd : Rec) :
    ∀ (hs : Registry) (w : World),
      regHeadOk hd hs → worldHeadOk hd w →
      worldHeadOk hd (finalizeAll cfg hs w) := by
  intro hs
  induction hs with
  | nil =>
    intro w _ hw
    exact hw
  | cons p rest ih =>
    intro w hreg hw
    have h1 : finalizeAll cfg (p :: rest) w =
        finalizeAll cfg rest (Shard.finalize cfg p.2 w) := rfl
    rw [h1]
    exact ih (Shard.finalize cfg p.2 w)
      (fun q hq => hreg q (List.mem_cons_of_mem _ hq))
      (Shard_finalize_headOk cfg p.2 w hd
        (hreg p (List.mem_cons_self _ _)) hw)

/-- C6: when a header record is configured, every physical file produced
by a whole run — across all rotations, all keys and the final teardown,
with or without write errors — has the header as its first entry. -/
theorem C6_header_first (cfg : Config) (env : Env) (records : List Rec)
    (hd : Rec) (hh : cfg.headerRecord = some hd) :
    ∀ sf ∈ (run cfg env records).1.closedFiles,
      sf.contents.head? = some hd := by
  unfold run
  have H := processIter_headOk cfg env records [] ⟨[], []⟩ hd hh
    (fun p hp => absurd hp (by simp)) (fun sf hsf => absurd hsf (by simp))
  rcases h1 : processIter cfg env [] ⟨[], []⟩ records with ⟨hs, w, res⟩
  rw [h1] at H
  exact fun sf hsf => finalizeAll_headOk cfg hd hs w H.1 H.2 sf hsf

/-- Witness for C6: a concrete run with header `[[72, 73]]` over three
records; the file produced for key "a" starts with the header. -/
theorem C6_header_first_witness :
    (run cfgH envAll [[[1, 2], [3]], [[4]], [[5]]]).1.closedFiles.map
      (fun sf => sf.contents.head?) = [some [[72, 73]]] := by
  have H := C6_header_first cfgH envAll [[[1, 2], [3]], [[4]], [[5]]]
    [[72, 73]] rfl
  rfl

/-! ### C3: SplitAfterRows file coverage -/

/-- The records a configured header contributes to a fresh file. -/
def headerList : Option Rec → List Rec
  | some h => [h]
  | none => []

/-- The sink bytes a configured header contributes to a fresh file. -/
def headerSink : Option Rec → Nat
  | some h => emittedLen h
  | none => 0

/-- The file after one successful record write under `SplitAfterRows`. -/
def bumpRows (sf : ShardFile) (record : Rec) : ShardFile :=
  { sf with
      contents := sf.contents ++ [record],
      sinkBytes := sf.sinkBytes + emittedLen record,
      written := sf.written + 1 }

theorem runShard_nil (cfg : Config) (env : Env) (s : Shard) (w : World) :
    runShard cfg env s w [] = (s, w, true) := rfl

theorem runShard_cons (cfg : Config) (env : Env) (s : Shard) (w : World)
    (record : Rec) (rs : List Rec) :
    runShard cfg env s w (record :: rs) =
      (match Shard.write_record cfg env s w record with
       | (s', w', ok) =>
         if ok then runShard cfg env s' w' rs else (s', w', false)) := rfl

theorem write_record_closed_envAll (cfg : Config) (s : Shard) (w : World)
    (record : Rec) (hcf : s.currentFile = none) :
    Shard.write_record cfg envAll s w record =
      openAndWrite envAll s (openedWorld cfg s w)
        (freshFile cfg s (headerList s.headerRecord)
          (headerSink s.headerRecord)) record := by
  unfold Shard.write_record
  rw [hcf]
  show writeClosed cfg envAll s w record = _
  unfold writeClosed
  rw [if_pos (show envAll.factoryOk (cfg.nameFile s.key s.sequence) = true
    from rfl)]
  cases hh : s.headerRecord with
  | none => rfl
  | some hd => rfl

theorem write_record_open_envAll (cfg : Config) (s : Shard) (w : World)
    (record : Rec) (sf : ShardFile) (hcf : s.currentFile = some sf) :
    Shard.write_record cfg envAll s w record =
      writeOpen cfg envAll s w sf record := by
  unfold Shard.write_record
  rw [hcf]

theorem ShardFile_write_record_envAll_rows (sf : ShardFile) (record : Rec)
    (n : Nat) (hsp : sf.splitting = .SplitAfterRows n) :
    sf.write_record envAll record =
      some (bumpRows sf record, decide (n ≤ sf.written + 1)) := by
  unfold ShardFile.write_record
  rw [if_pos (show envAll.writeOk sf.path sf.contents.length record = true
    from rfl)]
  split
  · rename_i heq
    rw [hsp] at heq
    cases heq
  · rename_i rows heq
    rw [hsp] at heq
    injection heq with h
    subst h
    rfl
  · rename_i bytes heq
    rw [hsp] at heq
    cases heq

theorem openAndWrite_envAll_rows (s : Shard) (w : World) (sf : ShardFile)
    (record : Rec) (n : Nat) (hsp : sf.splitting = .SplitAfterRows n) :
    openAndWrite envAll s w sf record =
      (if n ≤ sf.written + 1 then
        ({ s with sequence := s.sequence + 1 },
         { w with closedFiles := w.closedFiles ++ [bumpRows sf record] },
         true)
      else
        ({ s with
            sequence := s.sequence + 1,
            currentFile := some (bumpRows sf record) }, w, true)) := by
  unfold openAndWrite
  rw [ShardFile_write_record_envAll_rows sf record n hsp]
  by_cases hn : n ≤ sf.written + 1
  · rw [decide_eq_true hn, if_pos hn]
    rfl
  · rw [decide_eq_false hn, if_neg hn]
    rfl

theorem writeOpen_envAll_rows (cfg : Config) (s : Shard) (w : World)
    (sf : ShardFile) (record : Rec) (n : Nat)
    (hsp : sf.splitting = .SplitAfterRows n) :
    writeOpen cfg envAll s w sf record =
      (if n ≤ sf.written + 1 then
        ({ s with currentFile := none },
         { w with closedFiles := w.closedFiles ++ [bumpRows sf record],
                  events := w.events ++
                    completionEvents cfg (bumpRows sf record) }, true)
      else ({ s with currentFile := some (bumpRows sf record) }, w, true)) := by
  unfold writeOpen
  rw [ShardFile_write_record_envAll_rows sf record n hsp]
  by_cases hn : n ≤ sf.written + 1
  · rw [decide_eq_true hn, if_pos hn]
    rfl
  · rw [decide_eq_false hn, if_neg hn]
    rfl

/-- The loop invariant for one key under `SplitAfterRows n`, after
`n * q + r` successful record writes (with `r < n`): `q` full files of
exactly `n` data records each were produced at sequence numbers
`0, …, q-1`, and either the shard is closed (`r = 0`) or its open file
holds exactly `r` data records at sequence number `q`. -/
def RowsInv (cfg : Config) (n : Nat) (key : String) (q r : Nat)
    (s : Shard) (w : World) : Prop :=
  s.key = key ∧
  s.splitting = FileSplitting.SplitAfterRows n ∧
  s.headerRecord = cfg.headerRecord ∧
  w.closedFiles.map (dataCount cfg) = List.replicate q n ∧
  w.closedFiles.map ShardFile.seq = List.range q ∧
  (if r = 0 then s.currentFile = none ∧ s.sequence = q
   else ∃ sf, s.currentFile = some sf ∧ s.sequence = q + 1 ∧
     sf.splitting = FileSplitting.SplitAfterRows n ∧ sf.seq = q ∧
     sf.written = r ∧ sf.contents.length = headerLen cfg + r)

theorem headerList_length (cfg : Config) (o : Option Rec)
    (ho : o = cfg.headerRecord) : (headerList o).length = headerLen cfg := by
  cases o with
  | none => simp [headerList, headerLen, ← ho]
  | some hd => simp [headerList, headerLen, ← ho]

theorem RowsInv_step (cfg : Config) (n : Nat) (key : String) (q r : Nat)
    (s : Shard) (w : World) (rec : Rec)
    (hn : 1 ≤ n) (hr : r < n)
    (hInv : RowsInv cfg n key q r s w) :
    ∃ s' w', Shard.write_record cfg envAll s w rec = (s', w', true) ∧
      (if r + 1 = n then RowsInv cfg n key (q + 1) 0 s' w'
       else RowsInv cfg n key q (r + 1) s' w') := by
  obtain ⟨hkey, hsp, hhr, hmapc, hmaps, hstate⟩ := hInv
  by_cases hr0 : r = 0
  · subst hr0
    rw [if_pos rfl] at hstate
    obtain ⟨hcf, hseq⟩ := hstate
    rw [write_record_closed_envAll cfg s w rec hcf]
    have hsf0sp : (freshFile cfg s (headerList s.headerRecord)
        (headerSink s.headerRecord)).splitting =
          FileSplitting.SplitAfterRows n := by
      simp [freshFile, hsp]
    rw [openAndWrite_envAll_rows s (openedWorld cfg s w) _ rec n hsf0sp]
    have hw0 : (freshFile cfg s (headerList s.headerRecord)
        (headerSink s.headerRecord)).written = 0 := rfl
    have hl := headerList_length cfg s.headerRecord hhr
    by_cases hn1 : n ≤ (freshFile cfg s (headerList s.headerRecord)
        (headerSink s.headerRecord)).written + 1
    · rw [if_pos hn1]
      rw [hw0] at hn1
      refine ⟨_, _, rfl, ?_⟩
      have hn1' : 0 + 1 = n := by omega
      rw [if_pos hn1']
      refine ⟨hkey, hsp, hhr, ?_, ?_, ?_⟩
      · show (w.closedFiles ++ [bumpRows (freshFile cfg s
            (headerList s.headerRecord) (headerSink s.headerRecord))
              rec]).map (dataCount cfg) = List.replicate (q + 1) n
        have hdc : dataCount cfg (bumpRows (freshFile cfg s
            (headerList s.headerRecord) (headerSink s.headerRecord)) rec) =
              n := by
          simp [dataCount, bumpRows, freshFile, hl]
          omega
        rw [List.map_append, hmapc, List.replicate_succ']
        simp [hdc]
      · show (w.closedFiles ++ [bumpRows (freshFile cfg s
            (headerList s.headerRecord) (headerSink s.headerRecord))
              rec]).map ShardFile.seq = List.range (q + 1)
        have hq0 : (bumpRows (freshFile cfg s (headerList s.headerRecord)
            (headerSink s.headerRecord)) rec).seq = q := by
          simp [bumpRows, freshFile, hseq]
        rw [List.map_append, hmaps, List.range_succ]
        simp [hq0]
      · rw [if_pos rfl]
        exact ⟨hcf, by show s.sequence + 1 = q + 1; rw [hseq]⟩
    · rw [if_neg hn1]
      rw [hw0] at hn1
      refine ⟨_, _, rfl, ?_⟩
      have hne : ¬ (0 + 1 = n) := by omega
      rw [if_neg hne]
      refine ⟨hkey, hsp, hhr, hmapc, hmaps, ?_⟩
      rw [if_neg (by omega : ¬ (0 + 1 = 0))]
      refine ⟨bumpRows (freshFile cfg s (headerList s.headerRecord)
          (headerSink s.headerRecord)) rec, rfl, ?_, ?_, ?_, ?_, ?_⟩
      · show s.sequence + 1 = q + 1
        rw [hseq]
      · simp [bumpRows, freshFile, hsp]
      · simp [bumpRows, freshFile, hseq]
      · simp [bumpRows, freshFile]
      · show ((freshFile cfg s (headerList s.headerRecord)
            (headerSink s.headerRecord)).contents ++ [rec]).length =
          headerLen cfg + (0 + 1)
        simp [freshFile, hl]
  · rw [if_neg hr0] at hstate
    obtain ⟨sf, hcf, hseq, hsfsp, hsfseq, hsfw, hsfc⟩ := hstate
    rw [write_record_open_envAll cfg s w rec sf hcf,
        writeOpen_envAll_rows cfg s w sf rec n hsfsp]
    by_cases hnr : n ≤ sf.written + 1
    · rw [if_pos hnr]
      rw [hsfw] at hnr
      refine ⟨_, _, rfl, ?_⟩
      have hrn : r + 1 = n := by omega
      rw [if_pos hrn]
      refine ⟨hkey, hsp, hhr, ?_, ?_, ?_⟩
      · show (w.closedFiles ++ [bumpRows sf rec]).map (dataCount cfg) =
          List.replicate (q + 1) n
        have hdc : dataCount cfg (bumpRows sf rec) = n := by
          simp [dataCount, bumpRows, hsfc]
          omega
        rw [List.map_append, hmapc, List.replicate_succ']
        simp [hdc]
      · show (w.closedFiles ++ [bumpRows sf rec]).map ShardFile.seq =
          List.range (q + 1)
        have hq0 : (bumpRows sf rec).seq = q := by simp [bumpRows, hsfseq]
        rw [List.map_append, hmaps, List.range_succ]
        simp [hq0]
      · rw [if_pos rfl]
        exact ⟨rfl, hseq⟩
    · rw [if_neg hnr]
      rw [hsfw] at hnr
      refine ⟨_, _, rfl, ?_⟩
      have hne : ¬ (r + 1 = n) := by omega
      rw [if_neg hne]
      refine ⟨hkey, hsp, hhr, hmapc, hmaps, ?_⟩
      rw [if_neg (by omega : ¬ (r + 1 = 0))]
      refine ⟨bumpRows sf rec, rfl, hseq, ?_, ?_, ?_, ?_⟩
      · simp [bumpRows, hsfsp]
      · simp [bumpRows, hsfseq]
      · simp [bumpRows, hsfw]
      · show (sf.contents ++ [rec]).length = headerLen cfg + (r + 1)
        simp [hsfc]
        omega

theorem RowsInv_run (cfg : Config) (n : Nat) (key : String) (hn : 1 ≤ n) :
    ∀ (records : List Rec) (q r : Nat) (s : Shard) (w : World),
      r < n → RowsInv cfg n key q r s w →
      ∃ s' w', runShard cfg envAll s w records = (s', w', true) ∧
        RowsInv cfg n key ((n * q + r + records.length) / n)
          ((n * q + r + records.length) % n) s' w' := by
  intro records
  induction records with
  | nil =>
    intro q r s w hr hInv
    refine ⟨s, w, rfl, ?_⟩
    have hdiv : (n * q + r + 0) / n = q := by
      rw [Nat.add_zero, Nat.mul_add_div (by omega), Nat.div_eq_of_lt hr,
        Nat.add_zero]
    have hmod : (n * q + r + 0) % n = r := by
      rw [Nat.add_zero, Nat.mul_add_mod, Nat.mod_eq_of_lt hr]
    simp only [List.length_nil]
    rw [hdiv, hmod]
    exact hInv
  | cons rec rs ih =>
    intro q r s w hr hInv
    obtain ⟨s1, w1, hw1, hInv1⟩ := RowsInv_step cfg n key q r s w rec hn hr hInv
    by_cases hrn : r + 1 = n
    · rw [if_pos hrn] at hInv1
      obtain ⟨s', w', hrun, hInv'⟩ := ih (q + 1) 0 s1 w1 (by omega) hInv1
      refine ⟨s', w', ?_, ?_⟩
      · rw [runShard_cons, hw1]
        exact hrun
      · have harith : n * (q + 1) + 0 + rs.length =
            n * q + r + (rec :: rs).length := by
          rw [Nat.mul_succ]
          simp only [List.length_cons]
          omega
        rw [harith] at hInv'
        exact hInv'
    · rw [if_neg hrn] at hInv1
      obtain ⟨s', w', hrun, hInv'⟩ := ih q (r + 1) s1 w1 (by omega) hInv1
      refine ⟨s', w', ?_, ?_⟩
      · rw [runShard_cons, hw1]
        exact hrun
      · have harith : n * q + (r + 1) + rs.length =
            n * q + r + (rec :: rs).length := by
          simp only [List.length_cons]
          omega
        rw [harith] at hInv'
        exact hInv'

/-- C3: under `SplitAfterRows n` with `n ≥ 1`, a shard that successfully
receives `m ≥ 1` records produces, once finalized, exactly `⌈m/n⌉`
physical files; their data-record counts are `n` for every file but the
last, whose count is `m mod n` (or `n` when `n` divides `m`); and their
sequence numbers are `0, 1, …, ⌈m/n⌉ - 1` in that order. -/
theorem C3_rows_split (cfg : Config) (key : String) (n : Nat)
    (records : List Rec) (hn : 1 ≤ n) (hm : 1 ≤ records.length)
    (hsp : cfg.splitting = FileSplitting.SplitAfterRows n) :
    ∃ s' w', runShard cfg envAll (Shard.new cfg key) ⟨[], []⟩ records =
        (s', w', true) ∧
      (Shard.finalize cfg s' w').closedFiles.length =
        (records.length + n - 1) / n ∧
      (Shard.finalize cfg s' w').closedFiles.map (dataCount cfg) =
        List.replicate ((records.length + n - 1) / n - 1) n ++
          [if records.length % n = 0 then n else records.length % n] ∧
      (Shard.finalize cfg s' w').closedFiles.map ShardFile.seq =
        List.range ((records.length + n - 1) / n) := by
  have hInv0 : RowsInv cfg n key 0 0 (Shard.new cfg key) ⟨[], []⟩ := by
    refine ⟨rfl, hsp, rfl, rfl, rfl, ?_⟩
    rw [if_pos rfl]
    exact ⟨rfl, rfl⟩
  obtain ⟨s', w', hrun, hInv⟩ := RowsInv_run cfg n key hn records 0 0 _ _
    (by omega) hInv0
  rw [show n * 0 + 0 + records.length = records.length from by simp] at hInv
  refine ⟨s', w', hrun, ?_⟩
  obtain ⟨hkey, hsp', hhr, hmapc, hmaps, hstate⟩ := hInv
  have hlen : w'.closedFiles.length = records.length / n := by
    have h3 := congrArg List.length hmapc
    simpa using h3
  by_cases hr0 : records.length % n = 0
  · rw [if_pos hr0] at hstate
    obtain ⟨hcf, hseq⟩ := hstate
    have hfin : Shard.finalize cfg s' w' = w' := by
      unfold Shard.finalize
      rw [hcf]
    rw [hfin]
    have hmn : n * (records.length / n) = records.length := by
      have h4 := Nat.div_add_mod records.length n
      omega
    have hq1 : 1 ≤ records.length / n := by
      rcases Nat.eq_zero_or_pos (records.length / n) with h | h
      · rw [h] at hmn
        simp at hmn
        omega
      · exact h
    have hceil : (records.length + n - 1) / n = records.length / n := by
      have h2 : records.length + n - 1 =
          n * (records.length / n) + (n - 1) := by
        rw [hmn]
        omega
      rw [h2, Nat.mul_add_div (show 0 < n by omega)]
      simp [Nat.div_eq_of_lt (show n - 1 < n by omega)]
    refine ⟨?_, ?_, ?_⟩
    · rw [hceil]
      exact hlen
    · rw [hceil, if_pos hr0, hmapc]
      conv_lhs => rw [show records.length / n =
        (records.length / n - 1) + 1 from by omega]
      rw [List.replicate_succ']
    · rw [hceil]
      exact hmaps
  · rw [if_neg hr0] at hstate
    obtain ⟨sf, hcf, hseq, hsfsp, hsfseq, hsfw, hsfc⟩ := hstate
    have hfin : Shard.finalize cfg s' w' =
        { w' with
            closedFiles := w'.closedFiles ++ [sf],
            events := w'.events ++ completionEvents cfg sf } := by
      unfold Shard.finalize
      rw [hcf]
    rw [hfin]
    have hrlt : records.length % n < n := Nat.mod_lt _ (by omega)
    have hdm := Nat.div_add_mod records.length n
    have hceil : (records.length + n - 1) / n = records.length / n + 1 := by
      have h2 : records.length + n - 1 =
          n * (records.length / n + 1) + (records.length % n - 1) := by
        rw [Nat.mul_succ]
        omega
      rw [h2, Nat.mul_add_div (show 0 < n by omega)]
      simp [Nat.div_eq_of_lt (show records.length % n - 1 < n by omega)]
    have hdc : dataCount cfg sf = records.length % n := by
      simp only [dataCount, hsfc]
      omega
    refine ⟨?_, ?_, ?_⟩
    · show (w'.closedFiles ++ [sf]).length = _
      rw [hceil]
      simp [hlen]
    · show (w'.closedFiles ++ [sf]).map (dataCount cfg) = _
      rw [List.map_append, hmapc, hceil, if_neg hr0]
      simp [hdc]
    · show (w'.closedFiles ++ [sf]).map ShardFile.seq = _
      rw [List.map_append, hmaps, hceil, List.range_succ]
      simp [hsfseq]

/-- Witness for C3: three records under `SplitAfterRows 2` produce two
files with data counts `[2, 1]` at sequence numbers `[0, 1]`. -/
theorem C3_rows_split_witness :
    ∃ s' w', runShard cfgA envAll (Shard.new cfgA "a") ⟨[], []⟩
        [[[1]], [[2]], [[3]]] = (s', w', true) ∧
      (Shard.finalize cfgA s' w').closedFiles.length =
        (([[[1]], [[2]], [[3]]] : List Rec).length + 2 - 1) / 2 ∧
      (Shard.finalize cfgA s' w').closedFiles.map (dataCount cfgA) =
        List.replicate
            ((([[[1]], [[2]], [[3]]] : List Rec).length + 2 - 1) / 2 - 1) 2 ++
          [if ([[[1]], [[2]], [[3]]] : List Rec).length % 2 = 0 then 2
           else ([[[1]], [[2]], [[3]]] : List Rec).length % 2] ∧
      (Shard.finalize cfgA s' w').closedFiles.map ShardFile.seq =
        List.range ((([[[1]], [[2]], [[3]]] : List Rec).length + 2 - 1) / 2) :=
  C3_rows_split cfgA "a" 2 [[[1]], [[2]], [[3]]] (by decide) (by decide) rfl

end ShardCsv
